import Mathlib

/-!
Shallow embedding of the embedding/extensibility core of the `rhai` scripting
engine: the `Scope` variable-binding stack (`src/scope.rs`), the native-function
marshaling bridge (`src/fn_register.rs`) and the custom syntax registry
(`src/syntax.rs`).  The dynamic value type (`dynamic.rs`) and the tokenizer
(`token.rs`) are not part of this core's sources; they are modelled from the
spec's Value contract and lexer contract where needed.
-/

namespace Rhai

/-- Modelled from the spec: the access mode of a `Dynamic` value
(`dynamic.rs` is not part of this core's sources).  The Value contract gives
`access_mode() -> {ReadWrite, ReadOnly}`. -/
inductive AccessMode
  | ReadWrite
  | ReadOnly
deriving DecidableEq

/-- Modelled from the spec: the payload of a dynamically typed value
(`dynamic.rs` is not part of this core's sources).  The Value contract needs a
tagged dynamic payload with run-time type identity, downcasting, and a
shared-mutable wrapper that `flatten` resolves to an owned snapshot. -/
inductive DynData
  | DUnit
  | DBool (b : Bool)
  | DInt (n : Int)
  | DStr (s : String)
  | DShared (d : DynData)
deriving DecidableEq

/-- Modelled from the spec: a dynamically typed value together with its access
mode (the Value contract of §3: clone, type identity, downcast, access mode,
flatten). -/
structure Dynamic where
  data : DynData
  access : AccessMode
deriving DecidableEq

/-- Modelled from the spec: host-side parameter types supported by the bridge.
`tRefStr` is the immutable-text reference type (`&str`) and `tOwnedStr` the
owned-text type (`String`); they have distinct type identities but both are
carried by the string payload. -/
inductive HostTy
  | tUnit
  | tBool
  | tInt
  | tOwnedStr
  | tRefStr
deriving DecidableEq

/-- Modelled from the spec: run-time type identity check used by downcasts.
A shared-wrapped value matches no concrete host type (it must be flattened
first). -/
def dynMatches : HostTy → DynData → Bool
  | HostTy.tUnit, DynData.DUnit => true
  | HostTy.tBool, DynData.DBool _ => true
  | HostTy.tInt, DynData.DInt _ => true
  | HostTy.tOwnedStr, DynData.DStr _ => true
  | HostTy.tRefStr, DynData.DStr _ => true
  | _, _ => false

/-- Modelled from the spec: `Dynamic::default()` is the empty unit placeholder
left behind by `mem::take`. -/
def dynUnit : Dynamic := ⟨DynData.DUnit, AccessMode.ReadWrite⟩

/-- Modelled from the spec: `Dynamic::from` / `into_dynamic` wraps a host value
as an ordinary (read-write) dynamic value. -/
def dynFrom (d : DynData) : Dynamic := ⟨d, AccessMode.ReadWrite⟩

/-- Modelled from the spec: `flatten` resolves a shared-mutable wrapper to an
owned snapshot and is a no-op otherwise. -/
def Dynamic.flatten_clone (d : Dynamic) : Dynamic :=
  match d.data with
  | DynData.DShared v => ⟨v, d.access⟩
  | _ => d

/-- Modelled from the spec: `flatten_in_place` replaces the value in its slot
by its flattened form. -/
def flatten_in_place (d : Dynamic) : Dynamic := Dynamic.flatten_clone d

/-- Modelled from the spec: `try_cast::<T>()` — downcast of the payload to a
concrete host type, `none` when the run-time type does not match. -/
def try_cast (ty : HostTy) (d : Dynamic) : Option DynData :=
  if dynMatches ty d.data then some d.data else none

/-- Modelled from the spec: `is_read_only()` of a dynamic value. -/
def Dynamic.is_read_only (d : Dynamic) : Bool :=
  match d.access with
  | AccessMode.ReadOnly => true
  | AccessMode.ReadWrite => false

/-- The `Scope` of `src/scope.rs`: two equal-length arrays, the values and the
(name, optional aliases) pairs, indices corresponding 1:1. -/
structure Scope where
  values : List Dynamic
  names : List (String × Option (List String))
deriving DecidableEq

/-- `Scope::new` (an empty scope, `Default`). -/
def Scope.new : Scope := ⟨[], []⟩

/-- `Scope::len`. -/
def Scope.len (s : Scope) : Nat := s.values.length

/-- `Scope::push_dynamic_value`: append the (name, no-alias) pair and the value
with its access mode set (`src/scope.rs:245-255`). -/
def Scope.push_dynamic_value (s : Scope) (name : String) (access : AccessMode)
    (value : Dynamic) : Scope :=
  { values := s.values ++ [{ value with access := access }],
    names := s.names ++ [(name, none)] }

/-- `Scope::push`: push a read-write binding (`src/scope.rs:174-180`). -/
def Scope.push (s : Scope) (name : String) (value : DynData) : Scope :=
  s.push_dynamic_value name AccessMode.ReadWrite (dynFrom value)

/-- `Scope::push_constant`: push a read-only binding (`src/scope.rs:213-219`). -/
def Scope.push_constant (s : Scope) (name : String) (value : DynData) : Scope :=
  s.push_dynamic_value name AccessMode.ReadOnly (dynFrom value)

/-- `Scope::push_dynamic`: the pushed value keeps its own access mode
(`src/scope.rs:194-196`). -/
def Scope.push_dynamic (s : Scope) (name : String) (value : Dynamic) : Scope :=
  s.push_dynamic_value name value.access value

/-- `Scope::rewind`: truncate both arrays to the first `size` entries
(`src/scope.rs:283-287`). -/
def Scope.rewind (s : Scope) (size : Nat) : Scope :=
  { values := s.values.take size, names := s.names.take size }

/-- `Scope::contains`: search the names in reverse order (`src/scope.rs:302-307`). -/
def Scope.contains (s : Scope) (name : String) : Bool :=
  s.names.reverse.any (fun p => decide (name = p.1))

/-- `Scope::get_index`: reverse search over the enumerated names, returning the
index and the access mode of the value at that index (`src/scope.rs:310-322`). -/
def Scope.get_index (s : Scope) (name : String) : Option (Nat × AccessMode) :=
  s.names.enum.reverse.findSome? (fun p =>
    if name = p.2.1 then some (p.1, (s.values.getD p.1 dynUnit).access) else none)

/-- `Scope::get_value`: reverse search for the first name match, then
flatten-clone the value at that index and downcast it (`src/scope.rs:336-343`). -/
def Scope.get_value (s : Scope) (ty : HostTy) (name : String) : Option DynData :=
  (s.names.enum.reverse.find? (fun p => decide (name = p.2.1))).bind (fun p =>
    try_cast ty (s.values.getD p.1 dynUnit).flatten_clone)

/-- `Scope::set_value` (`src/scope.rs:367-378`).  The Rust function panics on a
read-only match ("variable is constant"); the panic is modelled as `none`. -/
def Scope.set_value (s : Scope) (name : String) (value : DynData) : Option Scope :=
  match s.get_index name with
  | none => some (s.push name value)
  | some (_, AccessMode.ReadOnly) => none
  | some (index, AccessMode.ReadWrite) =>
      some { s with values := s.values.set index (dynFrom value) }

/-- `Scope::get_mut` (`src/scope.rs:399-405`): the exclusive handle to the live
slot is modelled by the slot's index. -/
def Scope.get_mut (s : Scope) (name : String) : Option Nat :=
  (s.get_index name).bind (fun p =>
    match p.2 with
    | AccessMode.ReadWrite => some p.1
    | AccessMode.ReadOnly => none)

/-- In-place update of one list element (used to model field updates through
`get_mut` on `names`). -/
def listModify {α : Type} (l : List α) (i : Nat) (f : α → α) : List α :=
  match l, i with
  | [], _ => []
  | x :: xs, 0 => f x :: xs
  | x :: xs, Nat.succ j => x :: listModify xs j f

/-- `Scope::add_entry_alias` (`src/scope.rs:414-427`): initialize the alias set
if absent, then insert the alias only if it is not already present. -/
def Scope.add_entry_alias (s : Scope) (index : Nat) (al : String) : Scope :=
  { s with
    names := listModify s.names index (fun p =>
      let l := p.2.getD []
      if l.any (fun x => al == x) then (p.1, some l) else (p.1, some (l ++ [al]))) }

/-- `Scope::clone_visible` (`src/scope.rs:431-446`): fold over the enumerated
names in reverse order, appending an entry (name pair plus the value at its
index) only when the name has not been appended yet. -/
def Scope.clone_visible (s : Scope) : Scope :=
  s.names.enum.reverse.foldl
    (fun acc p =>
      if acc.names.any (fun q => decide (q.1 = p.2.1)) then acc
      else { values := acc.values ++ [s.values.getD p.1 dynUnit],
             names := acc.names ++ [p.2] })
    Scope.new

/-- `Scope::iter_raw` (`src/scope.rs:493-498`). -/
def Scope.iter_raw (s : Scope) : List (String × Bool × Dynamic) :=
  (s.names.zip s.values).map (fun p => (p.1.1, p.2.is_read_only, p.2))

/-- `Scope::iter` (`src/scope.rs:486-489`): like `iter_raw` with the values
flatten-cloned. -/
def Scope.iter (s : Scope) : List (String × Bool × Dynamic) :=
  s.iter_raw.map (fun p => (p.1, p.2.1, p.2.2.flatten_clone))

/-! ## The marshaling bridge (`src/fn_register.rs`) -/

/-- Modelled from the spec: the single shared engine error type
(`EvalAltResult`, defined in `result.rs` outside this core); only its identity
matters for error propagation. -/
structure EvalAltResult where
  msg : String
deriving DecidableEq

/-- Modelled from the spec: the native call context handed to context-aware
host functions (`fn_native.rs` is outside this core); an opaque token. -/
structure NativeCallContext where
  tag : Nat
deriving DecidableEq

/-- `by_value` (`src/fn_register.rs:37-54`): convert one argument slot into a
by-value host parameter.  Returns the slot's new contents together with the
extracted host value (`none` models the panic on a type-mismatched slot).
The `&str` fast path flattens the slot in place and clones a reference out of
it; the `String` fast path and the generic branch take the slot (leaving the
unit default behind) before extracting. -/
def by_value (ty : HostTy) (slot : Dynamic) : Dynamic × Option DynData :=
  if ty = HostTy.tRefStr then
    let f := flatten_in_place slot
    match f.data with
    | DynData.DStr s => (f, some (DynData.DStr s))
    | _ => (f, none)
  else if ty = HostTy.tOwnedStr then
    match slot.data with
    | DynData.DStr s => (dynUnit, some (DynData.DStr s))
    | _ => (dynUnit, none)
  else
    (dynUnit, if dynMatches ty slot.data then some slot.data else none)

/-- The sequential argument drain performed by every generated thunk
(`src/fn_register.rs:100-101`): each parameter position consumes its slot with
`by_value` in order.  Returns the argument slots after conversion and the
extracted host values (`none` models a panic: a failed cast or a missing
argument, both caller precondition violations). -/
def drain_by_value : List HostTy → List Dynamic → List Dynamic × Option (List DynData)
  | [], rest => (rest, some [])
  | _ :: _, [] => ([], none)
  | ty :: ps, a :: rest =>
      let c := by_value ty a
      let r := drain_by_value ps rest
      (c.1 :: r.1,
       match c.2, r.2 with
       | some v, some vs => some (v :: vs)
       | _, _ => none)

/-- A registered native function's uniform invocation thunk
(the `CallableFunction` produced by `into_callable_function`): given the call
context and the argument slots, it produces the call result together with the
slots' state after the call; `none` models a panic from a violated caller
precondition. -/
structure CallableFunction where
  thunk : NativeCallContext → List Dynamic →
    Option (Except EvalAltResult Dynamic × List Dynamic)

/-- A plain host function of any arity: its parameter fingerprint and its
implementation on extracted host values. -/
structure PlainFn where
  params : List HostTy
  impl : List DynData → DynData

/-- A context-aware host function. -/
structure CtxFn where
  params : List HostTy
  impl : NativeCallContext → List DynData → DynData

/-- A fallible host function. -/
structure FallibleFn where
  params : List HostTy
  impl : List DynData → Except EvalAltResult DynData

/-- A context-aware fallible host function. -/
structure CtxFallibleFn where
  params : List HostTy
  impl : NativeCallContext → List DynData → Except EvalAltResult DynData

/-- `into_callable_function` for the plain shape (`src/fn_register.rs:97-109`):
drain the arguments by value, call the function, wrap the result with
`Ok(r.into_dynamic())`. -/
def into_callable_plain (f : PlainFn) : CallableFunction :=
  ⟨fun _ args =>
    let d := drain_by_value f.params args
    (d.2).map (fun vals => (Except.ok (dynFrom (f.impl vals)), d.1))⟩

/-- `into_callable_function` for the plain-with-context shape
(`src/fn_register.rs:121-133`): as the plain shape, threading the call
context through to the host function. -/
def into_callable_ctx (f : CtxFn) : CallableFunction :=
  ⟨fun ctx args =>
    let d := drain_by_value f.params args
    (d.2).map (fun vals => (Except.ok (dynFrom (f.impl ctx vals)), d.1))⟩

/-- `into_callable_function` for the fallible shape
(`src/fn_register.rs:145-154`): the host result is passed through with
`.map(Dynamic::from)`, so an error is propagated unchanged. -/
def into_callable_fallible (f : FallibleFn) : CallableFunction :=
  ⟨fun _ args =>
    let d := drain_by_value f.params args
    (d.2).map (fun vals => (Except.map dynFrom (f.impl vals), d.1))⟩

/-- `into_callable_function` for the fallible-with-context shape
(`src/fn_register.rs:166-175`). -/
def into_callable_ctx_fallible (f : CtxFallibleFn) : CallableFunction :=
  ⟨fun ctx args =>
    let d := drain_by_value f.params args
    (d.2).map (fun vals => (Except.map dynFrom (f.impl ctx vals), d.1))⟩

/-- Are the argument slots correctly typed for a parameter fingerprint?  (The
dispatcher contract: matching count and pointwise matching run-time types.) -/
def wellTypedArgs (params : List HostTy) (args : List Dynamic) : Bool :=
  params.length == args.length &&
    (params.zip args).all (fun p => dynMatches p.1 p.2.data)

/-! ## The custom syntax registry (`src/syntax.rs`) -/

/-- `MARKER_EXPR` (`src/syntax.rs:13`). -/
def MARKER_EXPR : String := "$expr$"

/-- `MARKER_BLOCK` (`src/syntax.rs:14`). -/
def MARKER_BLOCK : String := "$block$"

/-- `MARKER_IDENT` (`src/syntax.rs:15`). -/
def MARKER_IDENT : String := "$ident$"

/-- Modelled from the spec: a lexical token, distinguishing standard keywords,
reserved words and other lexical symbols (the tokenizer `token.rs` is not part
of this core's sources; §6 gives a classification function distinguishing
reserved keywords/operators from free identifiers). -/
inductive Token
  | Keyword (s : String)
  | Reserved (s : String)
  | Symbol (s : String)
deriving DecidableEq

/-- Modelled from the spec: the standard keywords of the base grammar. -/
def standardKeywords : List String :=
  ["if", "else", "while", "loop", "for", "in", "let", "const", "true", "false",
   "fn", "return", "throw", "try", "catch", "break", "continue", "switch",
   "do", "import", "export", "as", "private", "global"]

/-- Modelled from the spec: the reserved (not yet active) words of the base
grammar. -/
def reservedWords : List String :=
  ["var", "static", "goto", "exit", "match", "case", "public", "protected",
   "new", "use", "module", "thread", "spawn", "sync", "async", "await",
   "yield", "shared", "default", "void", "null", "nil"]

/-- Modelled from the spec: the non-keyword lexical symbols (operators and
punctuation) of the base grammar. -/
def standardSymbols : List String :=
  ["+", "-", "*", "/", "%", "=", "==", "!=", "<", "<=", ">", ">=", "(", ")",
   "[", "]", ",", ";", ":", "::", ".", "=>", "&&", "||", "!", "&", "|", "^",
   "<<", ">>", "+=", "-=", "*=", "/="]

/-- Modelled from the spec: `Token::lookup_from_syntax` — map a piece of text
to the lexical token it denotes, `none` for free text. -/
def tokenLookup (s : String) : Option Token :=
  if standardKeywords.contains s then some (Token.Keyword s)
  else if reservedWords.contains s then some (Token.Reserved s)
  else if standardSymbols.contains s then some (Token.Symbol s)
  else none

/-- Modelled from the spec: `Token::is_keyword` — is this a standard keyword? -/
def Token.is_keyword : Token → Bool
  | Token.Keyword _ => true
  | _ => false

/-- Modelled from the spec: `Token::is_reserved` — is this a reserved word? -/
def Token.is_reserved : Token → Bool
  | Token.Reserved _ => true
  | _ => false

/-- Modelled from the spec: `is_valid_identifier` of `token.rs` — a free
identifier starts with a letter or underscore and continues with letters,
digits or underscores. -/
def is_valid_identifier (s : String) : Bool :=
  match s.toList with
  | [] => false
  | c :: cs => (c.isAlpha || c == '_') && cs.all (fun x => x.isAlphanum || x == '_')

/-- The `str::trim` of the registration loop: drop leading and trailing
whitespace (implemented over the character list so that it evaluates by
kernel reduction). -/
def trimStr (s : String) : String :=
  String.mk (((s.toList.dropWhile Char.isWhitespace).reverse.dropWhile
    Char.isWhitespace).reverse)

/-- A registered custom syntax rule.  The synthesized parse callback of
`register_custom_syntax` is a closure fully determined by the captured
`segments` list (its behavior is `synthParse segments`); the evaluation
callback is opaque to every property below and is omitted. -/
structure CustomSyntaxRule where
  segments : List String
  scope_delta : Int
deriving DecidableEq

/-- The parts of the `Engine` touched by custom syntax registration
(`src/syntax.rs`): the disabled-symbol set, the custom keyword table
(keys only: this registration path always inserts `None` values), and the
custom syntax rule table keyed by the first segment. -/
structure Engine where
  disabled_symbols : List String
  custom_keywords : List String
  custom_rules : List (String × CustomSyntaxRule)
deriving DecidableEq

/-- An engine with nothing registered. -/
def Engine.new : Engine := ⟨[], [], []⟩

/-- Insert into an association table, replacing the value under an existing
key (the `custom_syntax.insert` of `src/syntax.rs:238`). -/
def assocInsert (m : List (String × CustomSyntaxRule)) (k : String)
    (v : CustomSyntaxRule) : List (String × CustomSyntaxRule) :=
  if m.any (fun p => p.1 == k) then
    m.map (fun p => if p.1 == k then (k, v) else p)
  else m ++ [(k, v)]

/-- The improper-symbol registration error produced at
`src/syntax.rs:147-157` and `src/syntax.rs:171-181`:
`LexError::ImproperSymbol(s, msg).into_err(Position::NONE)` where `msg` names
the 1-based segment position. -/
structure ParseError where
  symbol : String
  msg : String
deriving DecidableEq

/-- Build the improper-symbol error for symbol `s` at 1-based position `n`. -/
def improperSymbolErr (s : String) (n : Nat) : ParseError :=
  ⟨s, "Improper symbol for custom syntax at position #" ++ toString n ++ ": '" ++ s ++ "'"⟩

/-- The side effect on the engine's symbol table shared by the non-first and
identifier-in-first-position arms (`src/syntax.rs:133-138` and
`src/syntax.rs:161-166`): a disabled or reserved symbol becomes an ad hoc
custom keyword if it is not one already. -/
def addCustomKeywordIfNeeded (e : Engine) (s : String) (token : Option Token) : Engine :=
  if (e.disabled_symbols.contains s ||
        (match token with | some (Token.Reserved _) => true | _ => false)) &&
      !(e.custom_keywords.contains s) then
    { e with custom_keywords := e.custom_keywords ++ [s] }
  else e

/-- One arm of the segment classification `match` of
`register_custom_syntax` (`src/syntax.rs:127-182`), in source order: markers
not in first position; known tokens not in first position (with the custom
keyword side effect); standard or reserved keywords in first position
(rejected); identifiers in first position (with the side effect); everything
else rejected. -/
def classifySeg (e : Engine) (acc : List String) (s : String) :
    Except ParseError (Engine × String) :=
  let token := tokenLookup s
  if (s == MARKER_IDENT || s == MARKER_EXPR || s == MARKER_BLOCK) && !acc.isEmpty then
    Except.ok (e, s)
  else if !acc.isEmpty && token.isSome then
    Except.ok (addCustomKeywordIfNeeded e s token, s)
  else if acc.isEmpty &&
      (match token with | some t => t.is_keyword || t.is_reserved | none => false) then
    Except.error (improperSymbolErr s (acc.length + 1))
  else if acc.isEmpty && is_valid_identifier s then
    Except.ok (addCustomKeywordIfNeeded e s token, s)
  else
    Except.error (improperSymbolErr s (acc.length + 1))

/-- The segment-processing loop of `register_custom_syntax`
(`src/syntax.rs:117-185`): trim each keyword, skip empty ones, classify the
rest in order, accumulating the segment list; an error stops the loop (the
engine mutations already performed persist, as they do through `&mut self`). -/
def processSegs : Engine → List String → List String →
    Engine × Except ParseError (List String)
  | e, [], acc => (e, Except.ok acc)
  | e, k :: rest, acc =>
      let s := trimStr k
      if s.isEmpty then processSegs e rest acc
      else
        match classifySeg e acc s with
        | Except.error err => (e, Except.error err)
        | Except.ok (e1, seg) => processSegs e1 rest (acc ++ [seg])

/-- The synthesized parse callback (`src/syntax.rs:198-204`): given the
segments matched so far, answer `none` once all segments are consumed and the
next expected segment otherwise. -/
def synthParse (segments : List String) (stream : List String) (_tok : String) :
    Except ParseError (Option String) :=
  if stream.length ≥ segments.length then Except.ok none
  else Except.ok (some (segments.getD stream.length ""))

/-- `Engine::register_custom_syntax` (`src/syntax.rs:107-210`): process the
keyword list; on error report it (with the engine as mutated so far); when no
segments survive, succeed without installing anything; otherwise install the
rule under its first segment.  The second component is the returned error, if
any. -/
def registerCustomSyntaxRule (e : Engine) (keywords : List String)
    (new_vars : Int) : Engine × Option ParseError :=
  match processSegs e keywords [] with
  | (e1, Except.error err) => (e1, some err)
  | (e1, Except.ok segs) =>
      if segs.isEmpty then (e1, none)
      else
        ({ e1 with
            custom_rules := assocInsert e1.custom_rules (segs.headD "")
              ⟨segs, new_vars⟩ },
         none)

/-- The first non-empty trimmed keyword of a registration request. -/
def firstSeg : List String → Option String
  | [] => none
  | k :: rest =>
      let s := trimStr k
      if s.isEmpty then firstSeg rest else some s

/-- Is this text a standard keyword or reserved word of the base grammar? -/
def keywordOrReserved (s : String) : Bool :=
  match tokenLookup s with
  | some t => t.is_keyword || t.is_reserved
  | none => false

/-! ## Helper lemmas on the reverse-enumerated search -/

/-- A `find_map` whose body is a guarded `some` is a `find` followed by a map. -/
theorem findSome?_guard {α β : Type} (l : List α) (q : α → Prop) [DecidablePred q]
    (f : α → β) :
    (l.findSome? fun a => if q a then some (f a) else none) =
      (l.find? fun a => decide (q a)).map f := by
  induction l with
  | nil => rfl
  | cons a t ih =>
      by_cases h : q a <;>
        simp [List.findSome?_cons, List.find?_cons, h, ih]

/-- Soundness of the reverse-enumerated search: a hit is an in-range match and
nothing after it matches. -/
theorem findRev_eq_some {α : Type} {l : List α} {p : α → Bool} {i : Nat} {a : α}
    (h : (l.enum.reverse.find? fun q => p q.2) = some (i, a)) :
    l[i]? = some a ∧ p a = true ∧
      ∀ j b, i < j → l[j]? = some b → p b = false := by
  induction l using List.reverseRecOn with
  | nil => simp at h
  | append_singleton t x ih =>
      rw [List.enum_append, List.reverse_append] at h
      simp only [List.enumFrom, List.reverse_cons, List.reverse_nil,
        List.nil_append, List.singleton_append, List.find?_cons] at h
      rcases hx : p x with hfalse | htrue
      · rw [hx] at h
        obtain ⟨hi, hp, hrest⟩ := ih h
        have hlt : i < t.length := (List.getElem?_eq_some.mp hi).1
        refine ⟨?_, hp, ?_⟩
        · rw [List.getElem?_append_left hlt]; exact hi
        · intro j b hij hjb
          rcases Nat.lt_trichotomy j t.length with hj | hj | hj
          · exact hrest j b hij (by rwa [List.getElem?_append_left hj] at hjb)
          · subst hj
            rw [List.getElem?_concat_length] at hjb
            cases hjb; exact hx
          · have hnone : (t ++ [x])[j]? = none :=
              List.getElem?_eq_none (by simp; omega)
            rw [hnone] at hjb
            cases hjb
      · rw [hx] at h
        simp only [Option.some.injEq, Prod.mk.injEq] at h
        refine ⟨?_, ?_, ?_⟩
        · rw [← h.1, ← h.2]
          exact List.getElem?_concat_length t x
        · rw [← h.2]; exact hx
        · intro j b hij hjb
          rw [← h.1] at hij
          have hnone : (t ++ [x])[j]? = none :=
            List.getElem?_eq_none (by simp; omega)
          rw [hnone] at hjb
          cases hjb

/-- Completeness of the reverse-enumerated search: a miss means nothing
matches. -/
theorem findRev_eq_none {α : Type} {l : List α} {p : α → Bool}
    (h : (l.enum.reverse.find? fun q => p q.2) = none) :
    ∀ (j : Nat) (b : α), l[j]? = some b → p b = false := by
  induction l using List.reverseRecOn with
  | nil => intro j b hj; simp at hj
  | append_singleton t x ih =>
      rw [List.enum_append, List.reverse_append] at h
      simp only [List.enumFrom, List.reverse_cons, List.reverse_nil,
        List.nil_append, List.singleton_append, List.find?_cons] at h
      rcases hx : p x with hfalse | htrue
      · rw [hx] at h
        intro j b hjb
        rcases Nat.lt_trichotomy j t.length with hj | hj | hj
        · exact ih h j b (by rwa [List.getElem?_append_left hj] at hjb)
        · subst hj
          rw [List.getElem?_concat_length] at hjb
          cases hjb; exact hx
        · have hnone : (t ++ [x])[j]? = none :=
            List.getElem?_eq_none (by simp; omega)
          rw [hnone] at hjb
          cases hjb
      · rw [hx] at h; cases h

/-- `Scope::get_index` as a reverse `find` followed by a projection. -/
theorem get_index_eq_find (s : Scope) (name : String) :
    s.get_index name =
      (s.names.enum.reverse.find? fun p => decide (name = p.2.1)).map
        (fun p => (p.1, (s.values.getD p.1 dynUnit).access)) := by
  unfold Scope.get_index
  exact findSome?_guard s.names.enum.reverse
    (fun p : Nat × (String × Option (List String)) => name = p.2.1)
    (fun p => (p.1, (s.values.getD p.1 dynUnit).access))

/-- `Scope::get_value` performs exactly the `get_index` search before the
flatten-and-downcast step. -/
theorem get_value_eq_bind (s : Scope) (ty : HostTy) (name : String) :
    s.get_value ty name = (s.get_index name).bind
      (fun p => try_cast ty ((s.values.getD p.1 dynUnit).flatten_clone)) := by
  rw [get_index_eq_find, Scope.get_value]
  cases s.names.enum.reverse.find? fun p => decide (name = p.2.1) <;> simp

/-- `Scope::contains` agrees with the `get_index` search. -/
theorem contains_eq_isSome (s : Scope) (name : String) :
    s.contains name = (s.get_index name).isSome := by
  rw [get_index_eq_find]
  rcases hf : List.find? (fun p => decide (name = p.2.1)) s.names.enum.reverse
    with _ | q
  · rw [hf]
    simp only [Option.map_none', Option.isSome_none]
    rw [Scope.contains, List.any_eq_false]
    intro p hp
    have hmem : p ∈ s.names := List.mem_reverse.mp hp
    rw [← List.enum_map_snd s.names] at hmem
    obtain ⟨q, hq, hqp⟩ := List.mem_map.mp hmem
    have := List.find?_eq_none.mp hf q (List.mem_reverse.mpr hq)
    simp only [decide_eq_true_eq] at this ⊢
    rw [← hqp]
    exact fun hc => this hc
  · rw [hf]
    simp only [Option.map_some', Option.isSome_some]
    have hq := List.find?_some hf
    have hmem : q ∈ s.names.enum.reverse := List.mem_of_find?_eq_some hf
    rw [Scope.contains, List.any_eq_true]
    refine ⟨q.2, ?_, hq⟩
    rw [List.mem_reverse]
    rw [← List.enum_map_snd s.names]
    exact List.mem_map.mpr ⟨q, List.mem_reverse.mp hmem, rfl⟩

/-- The step performed by the `clone_visible` fold, on a (name-pair, value)
entry. -/
def cloneStep (acc : Scope) (e : (String × Option (List String)) × Dynamic) :
    Scope :=
  if acc.names.any (fun q => decide (q.1 = e.1.1)) then acc
  else ⟨acc.values ++ [e.2], acc.names ++ [e.1]⟩

/-- Reference description (following the spec's words) of the entries kept by
`clone_visible`: walk the (name-pair, value) entries, keeping an entry only
when its name has not been kept before and is not among `seen`. -/
def keepFirstByName (seen : List (String × Option (List String))) :
    List ((String × Option (List String)) × Dynamic) →
      List ((String × Option (List String)) × Dynamic)
  | [] => []
  | e :: rest =>
      if seen.any (fun q => decide (q.1 = e.1.1)) then keepFirstByName seen rest
      else e :: keepFirstByName (seen ++ [e.1]) rest

/-- The `clone_visible` fold appends exactly the entries kept by
`keepFirstByName`. -/
theorem foldl_cloneStep (l : List ((String × Option (List String)) × Dynamic)) :
    ∀ acc : Scope,
      List.foldl cloneStep acc l =
        ⟨acc.values ++ (keepFirstByName acc.names l).map Prod.snd,
         acc.names ++ (keepFirstByName acc.names l).map Prod.fst⟩ := by
  induction l with
  | nil => intro acc; simp [keepFirstByName]
  | cons e rest ih =>
      intro acc
      rw [List.foldl_cons]
      rcases hc : acc.names.any (fun q => decide (q.1 = e.1.1)) with hfalse | htrue
      · rw [show cloneStep acc e = ⟨acc.values ++ [e.2], acc.names ++ [e.1]⟩ from
          by rw [cloneStep, hc]; rfl]
        rw [ih ⟨acc.values ++ [e.2], acc.names ++ [e.1]⟩]
        rw [keepFirstByName, hc]
        simp [List.append_assoc]
      · rw [show cloneStep acc e = acc from by rw [cloneStep, hc]; rfl]
        rw [ih acc, keepFirstByName, hc]
        simp

/-- When the incoming names are distinct and unseen, `keepFirstByName` keeps
everything. -/
theorem keepFirstByName_eq_self
    (l : List ((String × Option (List String)) × Dynamic)) :
    ∀ seen : List (String × Option (List String)),
      (∀ x ∈ l, ∀ q ∈ seen, q.1 ≠ x.1.1) →
      (l.map (fun e => e.1.1)).Nodup →
      keepFirstByName seen l = l := by
  induction l with
  | nil => intro seen _ _; rfl
  | cons e rest ih =>
      intro seen hd hn
      have hfalse : seen.any (fun q => decide (q.1 = e.1.1)) = false := by
        rw [List.any_eq_false]
        intro q hq
        simp only [decide_eq_true_eq]
        exact hd e (List.mem_cons_self e rest) q hq
      rw [keepFirstByName, hfalse]
      simp only [List.map_cons, List.nodup_cons] at hn
      have hrest : keepFirstByName (seen ++ [e.1]) rest = rest := by
        refine ih (seen ++ [e.1]) ?_ hn.2
        intro x hx q hq
        rcases List.mem_append.mp hq with hq | hq
        · exact hd x (List.mem_cons_of_mem e hx) q hq
        · have hqe : q = e.1 := by simpa using hq
          subst hqe
          intro hcontra
          exact hn.1 (hcontra ▸ List.mem_map_of_mem (fun e => e.1.1) hx)
      rw [hrest]
      simp

/-- Mapping index lookup over an enumeration recovers the zip with the values
list. -/
theorem enumFrom_map_getD {α β : Type} (d : β) :
    ∀ (ns : List α) (k : Nat) (vs : List β), k + ns.length ≤ vs.length →
      ((List.enumFrom k ns).map fun p => (p.2, vs.getD p.1 d)) =
        ns.zip (vs.drop k) := by
  intro ns
  induction ns with
  | nil => intro k vs _; simp
  | cons n t ih =>
      intro k vs hlen
      have hk : k < vs.length := by simp at hlen; omega
      rw [List.enumFrom_cons, List.map_cons,
        ih (k + 1) vs (by simp at hlen ⊢; omega),
        List.drop_eq_getElem_cons hk, List.zip_cons_cons,
        List.getD_eq_getElem vs d hk]

/-- `clone_visible` is the `cloneStep` fold over the reversed zip of names
and values. -/
theorem clone_visible_eq_foldl (s : Scope)
    (h : s.names.length ≤ s.values.length) :
    s.clone_visible =
      List.foldl cloneStep Scope.new ((s.names.zip s.values).reverse) := by
  rw [Scope.clone_visible]
  have hm : (s.names.zip s.values).reverse =
      (s.names.enum.reverse).map
        (fun p => (p.2, s.values.getD p.1 dynUnit)) := by
    rw [List.map_reverse]
    have hz := enumFrom_map_getD dynUnit s.names 0 s.values (by simpa using h)
    rw [show s.names.enum = List.enumFrom 0 s.names from rfl, hz,
      List.drop_zero]
  rw [hm, List.foldl_map]
  rfl

/-- A by-value conversion on a correctly typed slot extracts exactly the
slot's payload. -/
theorem by_value_extracts (ty : HostTy) (d : Dynamic)
    (h : dynMatches ty d.data = true) :
    (by_value ty d).2 = some d.data := by
  rcases d with ⟨dd, da⟩
  cases ty <;> cases dd <;> simp_all [by_value, dynMatches, flatten_in_place,
    Dynamic.flatten_clone]

/-- The slot state after a by-value conversion never depends on success: every
type but the `&str` fast path leaves the unit placeholder, and the `&str` fast
path leaves the flattened slot. -/
theorem by_value_slot_state (ty : HostTy) (d : Dynamic) :
    (ty ≠ HostTy.tRefStr → (by_value ty d).1 = dynUnit) ∧
    (by_value HostTy.tRefStr d).1 = flatten_in_place d := by
  constructor
  · intro hne
    rcases d with ⟨dd, da⟩
    cases ty <;> cases dd <;> simp_all [by_value]
  · rcases d with ⟨dd, da⟩
    cases dd with
    | DUnit => rfl
    | DBool b => rfl
    | DInt n => rfl
    | DStr s => rfl
    | DShared inner => cases inner <;> rfl

/-- On correctly typed argument slots the sequential drain succeeds and
extracts exactly the slots' payloads in order. -/
theorem drain_extracts :
    ∀ (params : List HostTy) (args : List Dynamic),
      wellTypedArgs params args = true →
      (drain_by_value params args).2 = some (args.map Dynamic.data) := by
  intro params
  induction params with
  | nil =>
      intro args h
      simp only [wellTypedArgs, Bool.and_eq_true, beq_iff_eq] at h
      cases args
      · rfl
      · cases h.1
  | cons ty ps ih =>
      intro args h
      simp only [wellTypedArgs, Bool.and_eq_true, beq_iff_eq] at h
      cases args with
      | nil => cases h.1
      | cons a rest =>
          simp only [List.zip_cons_cons, List.all_cons, Bool.and_eq_true] at h
          have hv := by_value_extracts ty a h.2.1
          have hr : (drain_by_value ps rest).2 = some (rest.map Dynamic.data) := by
            apply ih
            simp only [wellTypedArgs, Bool.and_eq_true, beq_iff_eq]
            exact ⟨by simpa using h.1, h.2.2⟩
          rw [drain_by_value]
          simp only [hv, hr]
          rfl

/-- When the first surviving segment is classified as an error, the
registration loop stops there with the engine untouched. -/
theorem processSegs_error_of_first {kws : List String} {s0 : String}
    (h1 : firstSeg kws = some s0) :
    ∀ (e : Engine) (err : ParseError),
      classifySeg e [] s0 = Except.error err →
      processSegs e kws [] = (e, Except.error err) := by
  induction kws with
  | nil => cases h1
  | cons k rest ih =>
      intro e err hc
      rw [firstSeg] at h1
      rw [processSegs]
      rcases he : (trimStr k).isEmpty with hfalse | htrue
      · rw [he] at h1
        have hs : trimStr k = s0 := by simpa using h1
        rw [← hs] at hc
        simp only [he, Bool.false_eq_true, if_false, hc]
      · rw [he] at h1
        simp only [if_true] at h1
        simp only [he, if_true]
        exact ih h1 e err hc

/-- A keyword or reserved word in first position is classified as an
improper-symbol error at position 1. -/
theorem classifySeg_first_keyword (e : Engine) (s : String)
    (h : keywordOrReserved s = true) :
    classifySeg e [] s = Except.error (improperSymbolErr s 1) := by
  rw [keywordOrReserved] at h
  rw [classifySeg]
  rcases ht : tokenLookup s with _ | t
  · rw [ht] at h
    cases h
  · rw [ht] at h
    have h2 : (t.is_keyword || t.is_reserved) = true := h
    simp [ht, h2]

/-- A marker in first position is classified as an improper-symbol error at
position 1 (it is neither a marker-after-first, nor a known token, nor a
valid identifier). -/
theorem classifySeg_first_marker (e : Engine) (s : String)
    (h : s = MARKER_EXPR ∨ s = MARKER_BLOCK ∨ s = MARKER_IDENT) :
    classifySeg e [] s = Except.error (improperSymbolErr s 1) := by
  rcases h with h | h | h <;> subst h <;> rfl

/-! ## The claims -/

/-- C1 (counterexample): the claim says that when no two bindings share a
name, `clone_visible()` yields a scope with identical contents and order to
the original.  On a two-entry scope with the distinct names "x", "y" the
result differs from the original (the surviving entries come out reversed). -/
theorem clone_visible_not_order_preserving :
    ((Scope.new.push "x" (DynData.DInt 1)).push "y" (DynData.DInt 2)).clone_visible ≠
      (Scope.new.push "x" (DynData.DInt 1)).push "y" (DynData.DInt 2) := by
  decide

/-- C1 (amended): `clone_visible()` returns a new Scope containing exactly one
entry per distinct name — for each name, the most recently pushed entry — with
all shadowed duplicates dropped, but the surviving entries appear in the
reverse of their original relative order: the result is the walk of the
reversed entry sequence keeping only the first occurrence of each name.  In
particular, if no two bindings share a name, the result has the contents of
the original Scope in reversed order. -/
theorem clone_visible_dedup_reversed (s : Scope)
    (h : s.names.length = s.values.length) :
    s.clone_visible =
      ⟨(keepFirstByName [] ((s.names.zip s.values).reverse)).map Prod.snd,
       (keepFirstByName [] ((s.names.zip s.values).reverse)).map Prod.fst⟩ ∧
    ((s.names.map Prod.fst).Nodup →
      s.clone_visible = ⟨s.values.reverse, s.names.reverse⟩) := by
  have hle : s.names.length ≤ s.values.length := h.le
  have h1 := clone_visible_eq_foldl s hle
  have h2 := foldl_cloneStep ((s.names.zip s.values).reverse) Scope.new
  constructor
  · rw [h1, h2]
    rfl
  · intro hnod
    have hzipnames : ((s.names.zip s.values).reverse.map (fun e => e.1.1)) =
        (s.names.map Prod.fst).reverse := by
      rw [List.map_reverse]
      have hmm : (s.names.zip s.values).map (fun e => e.1.1) =
          (List.map Prod.fst (s.names.zip s.values)).map Prod.fst := by
        rw [List.map_map]
        rfl
      rw [hmm, List.map_fst_zip _ _ hle]
    have hkeep : keepFirstByName [] ((s.names.zip s.values).reverse) =
        (s.names.zip s.values).reverse := by
      apply keepFirstByName_eq_self
      · intro x _ q hq
        cases hq
      · rw [hzipnames]
        exact List.nodup_reverse.mpr hnod
    have hv : ((s.names.zip s.values).reverse).map Prod.snd = s.values.reverse := by
      rw [List.map_reverse, List.map_snd_zip _ _ h.ge]
    have hnm : ((s.names.zip s.values).reverse).map Prod.fst = s.names.reverse := by
      rw [List.map_reverse, List.map_fst_zip _ _ hle]
    rw [h1, h2]
    simp only [show Scope.new.names = [] from rfl,
      show Scope.new.values = [] from rfl, List.nil_append]
    rw [hkeep, hv, hnm]

/-- C1 (witness): the amended statement evaluated on a concrete two-entry
scope with distinct names. -/
theorem clone_visible_dedup_reversed_witness :
    ((Scope.new.push "x" (DynData.DInt 1)).push "y" (DynData.DInt 2)).clone_visible =
      ⟨[⟨DynData.DInt 2, AccessMode.ReadWrite⟩, ⟨DynData.DInt 1, AccessMode.ReadWrite⟩],
       [("y", none), ("x", none)]⟩ :=
  ((clone_visible_dedup_reversed
      ((Scope.new.push "x" (DynData.DInt 1)).push "y" (DynData.DInt 2))
      (by decide)).2 (by decide)).trans (by decide)

/-- C3: name lookup in a `Scope` (the `get_index` search shared by
`contains`, `get_value`, `get_mut` and `set_value`) always resolves to the
most recently pushed entry with a matching name, never to an older one; and
concretely, after `push("x", 10)` and `push_constant("x", 20)`,
`get_value::<int>("x")` returns 20, and after `rewind(1)` it returns 10. -/
theorem lookup_resolves_most_recent :
    (∀ (s : Scope) (name : String) (i : Nat) (a : AccessMode),
        s.get_index name = some (i, a) →
          (∃ q, s.names[i]? = some q ∧ q.1 = name ∧
              a = (s.values.getD i dynUnit).access) ∧
          (∀ (j : Nat) (q : String × Option (List String)),
              i < j → s.names[j]? = some q → q.1 ≠ name)) ∧
    (∀ (s : Scope) (name : String),
        s.contains name = (s.get_index name).isSome) ∧
    (((Scope.new.push "x" (DynData.DInt 10)).push_constant "x"
        (DynData.DInt 20)).get_value HostTy.tInt "x" = some (DynData.DInt 20)) ∧
    ((((Scope.new.push "x" (DynData.DInt 10)).push_constant "x"
        (DynData.DInt 20)).rewind 1).get_value HostTy.tInt "x" =
      some (DynData.DInt 10)) := by
  refine ⟨?_, fun s name => contains_eq_isSome s name, by decide, by decide⟩
  intro s name i a h
  rw [get_index_eq_find] at h
  obtain ⟨p, hfind, hmap⟩ := Option.map_eq_some'.mp h
  rw [Prod.ext_iff] at hmap
  obtain ⟨hi, ha⟩ := hmap
  rw [← Prod.mk.eta (p := p)] at hfind
  obtain ⟨hgets, hpred, hlater⟩ :=
    findRev_eq_some
      (p := fun x : String × Option (List String) => decide (name = x.1)) hfind
  subst hi
  constructor
  · exact ⟨p.2, hgets, (by simpa using hpred : name = p.2.1).symm, ha.symm⟩
  · intro j q hij hj
    have hfalse := hlater j q hij hj
    simp only [decide_eq_false_iff_not] at hfalse
    exact fun hq => hfalse hq.symm

/-- C3 (witness): the most-recent-match characterization applied to the
shadowed "x" of the concrete scenario scope. -/
theorem lookup_resolves_most_recent_witness :
    ∃ q, (((Scope.new.push "x" (DynData.DInt 10)).push_constant "x"
        (DynData.DInt 20)).names)[1]? = some q ∧ q.1 = "x" ∧
      AccessMode.ReadOnly =
        ((((Scope.new.push "x" (DynData.DInt 10)).push_constant "x"
            (DynData.DInt 20)).values.getD 1 dynUnit)).access :=
  (lookup_resolves_most_recent.1 _ "x" 1 AccessMode.ReadOnly (by decide)).1

/-- C4: `set_value(name, value)` searches from the end; if the match is
read-write its value is replaced in place (a fresh read-write dynamic); if the
match is read-only the call fails fatally (modelled as `none` — no scope with
a changed value is ever produced); if there is no match a new read-write
binding is appended via `push`. -/
theorem set_value_policy (s : Scope) (name : String) (v : DynData) :
    (s.get_index name = none → s.set_value name v = some (s.push name v)) ∧
    (∀ i, s.get_index name = some (i, AccessMode.ReadOnly) →
        s.set_value name v = none) ∧
    (∀ i, s.get_index name = some (i, AccessMode.ReadWrite) →
        s.set_value name v =
          some { s with values := s.values.set i (dynFrom v) }) := by
  refine ⟨?_, ?_, ?_⟩
  · intro h
    rw [Scope.set_value, h]
  · intro i h
    rw [Scope.set_value, h]
  · intro i h
    rw [Scope.set_value, h]

/-- C4 (witness): setting a constant fails fatally; setting an absent name
appends. -/
theorem set_value_policy_witness :
    (Scope.new.push_constant "x" (DynData.DInt 1)).set_value "x"
        (DynData.DInt 2) = none ∧
    Scope.new.set_value "y" (DynData.DInt 3) =
      some (Scope.new.push "y" (DynData.DInt 3)) :=
  ⟨(set_value_policy _ "x" (DynData.DInt 2)).2.1 0 (by decide),
   (set_value_policy Scope.new "y" (DynData.DInt 3)).1 (by decide)⟩

/-- C7: `get_value` performs exactly the reverse search of `get_index` and
then flattens and downcasts the matched value; it returns `none` both when
the name is unbound and when the bound value fails the downcast, and the two
cases produce the same indistinguishable result. -/
theorem get_value_conflates (s : Scope) (ty : HostTy) (name : String) :
    (s.get_value ty name = (s.get_index name).bind
        (fun p => try_cast ty ((s.values.getD p.1 dynUnit).flatten_clone))) ∧
    (s.get_index name = none → s.get_value ty name = none) ∧
    (∀ i a, s.get_index name = some (i, a) →
        try_cast ty ((s.values.getD i dynUnit).flatten_clone) = none →
        s.get_value ty name = none) := by
  refine ⟨get_value_eq_bind s ty name, ?_, ?_⟩
  · intro h
    rw [get_value_eq_bind, h]
    rfl
  · intro i a h hc
    rw [get_value_eq_bind, h]
    simpa using hc

/-- C7 (witness): an incompatible downcast and an unbound name both produce
`none` on a concrete scope. -/
theorem get_value_conflates_witness :
    (Scope.new.push "x" (DynData.DStr "s")).get_value HostTy.tInt "x" = none ∧
    (Scope.new.push "x" (DynData.DStr "s")).get_value HostTy.tInt "y" = none :=
  ⟨(get_value_conflates _ HostTy.tInt "x").2.2 0 AccessMode.ReadWrite
      (by decide) (by decide),
   (get_value_conflates _ HostTy.tInt "y").2.1 (by decide)⟩

/-- C6: `register_custom_syntax` rejects any rule whose first non-empty
segment is a standard keyword or reserved word: it returns the
improper-symbol error for position 1 and leaves the engine — in particular
the custom syntax registry — exactly as it was. -/
theorem register_rejects_keyword_first (e : Engine) (kws : List String)
    (nv : Int) (s0 : String)
    (h1 : firstSeg kws = some s0) (h2 : keywordOrReserved s0 = true) :
    registerCustomSyntaxRule e kws nv = (e, some (improperSymbolErr s0 1)) := by
  have hc := classifySeg_first_keyword e s0 h2
  have hp := processSegs_error_of_first h1 e (improperSymbolErr s0 1) hc
  rw [registerCustomSyntaxRule, hp]

/-- C6 (witness): registering a rule starting with the keyword "if" fails
with the improper-symbol error and changes nothing. -/
theorem register_rejects_keyword_first_witness :
    registerCustomSyntaxRule Engine.new ["if", "$expr$"] 0 =
      (Engine.new, some (improperSymbolErr "if" 1)) :=
  register_rejects_keyword_first Engine.new ["if", "$expr$"] 0 "if"
    (by decide) (by decide)

/-- C9: for a rule with non-empty segment list `S`, the synthesized parse
callback answers with the next expected segment `S[n]` while the number `n`
of segments matched so far is below the length of `S`, answers `none`
(completion) once `n` reaches the length of `S`, and never returns an
error. -/
theorem synth_parse_steps (S : List String) (stream : List String)
    (tok : String) (_hS : S ≠ []) :
    (stream.length < S.length →
        synthParse S stream tok =
          Except.ok (some (S.getD stream.length ""))) ∧
    (S.length ≤ stream.length → synthParse S stream tok = Except.ok none) ∧
    (∀ err, synthParse S stream tok ≠ Except.error err) := by
  refine ⟨?_, ?_, ?_⟩
  · intro h
    rw [synthParse, if_neg (by omega)]
  · intro h
    rw [synthParse, if_pos (by omega)]
  · intro err
    rw [synthParse]
    split <;> simp

/-- C9 (witness): the synthesized callback stepping through a concrete
two-segment rule. -/
theorem synth_parse_steps_witness :
    synthParse ["do_this", "$expr$"] ["do_this"] "x" =
      Except.ok (some "$expr$") ∧
    synthParse ["do_this", "$expr$"] ["do_this", "$expr$"] "x" =
      Except.ok none :=
  ⟨((synth_parse_steps ["do_this", "$expr$"] ["do_this"] "x"
      (by decide)).1 (by decide)).trans rfl,
   (synth_parse_steps ["do_this", "$expr$"] ["do_this", "$expr$"] "x"
      (by decide)).2.1 (by decide)⟩

/-- C10: passing a marker segment (`$expr$`, `$block$` or `$ident$`) as the
first non-empty segment to `register_custom_syntax` is rejected with the
improper-symbol error for position 1, and the engine — in particular the
custom syntax registry — is left unchanged. -/
theorem register_rejects_marker_first (e : Engine) (kws : List String)
    (nv : Int) (s0 : String)
    (h1 : firstSeg kws = some s0)
    (h2 : s0 = MARKER_EXPR ∨ s0 = MARKER_BLOCK ∨ s0 = MARKER_IDENT) :
    registerCustomSyntaxRule e kws nv = (e, some (improperSymbolErr s0 1)) := by
  have hc := classifySeg_first_marker e s0 h2
  have hp := processSegs_error_of_first h1 e (improperSymbolErr s0 1) hc
  rw [registerCustomSyntaxRule, hp]

/-- C10 (witness): registering a rule starting with the marker `$block$`
fails with the improper-symbol error and changes nothing. -/
theorem register_rejects_marker_first_witness :
    registerCustomSyntaxRule Engine.new ["$block$", "x"] 0 =
      (Engine.new, some (improperSymbolErr "$block$" 1)) :=
  register_rejects_marker_first Engine.new ["$block$", "x"] 0 "$block$"
    (by decide) (Or.inr (Or.inl rfl))

/-- C8: `get_mut(name)` returns `none` exactly when the name is absent or the
resolved entry is read-only, and otherwise a handle to the live slot resolved
by the search; moreover no Scope operation mutates a read-only entry's value
in place — `push` and `add_entry_alias` keep it at its index unchanged,
`rewind` keeps it unchanged whenever it survives the truncation, and a
successful `set_value` never touches it. -/
theorem readonly_never_mutated (s : Scope) (name : String) :
    (s.get_mut name = none ↔
      s.get_index name = none ∨
        ∃ i, s.get_index name = some (i, AccessMode.ReadOnly)) ∧
    (∀ i, s.get_mut name = some i →
        s.get_index name = some (i, AccessMode.ReadWrite)) ∧
    (∀ (i : Nat) (d : Dynamic), s.values[i]? = some d →
        d.access = AccessMode.ReadOnly →
        (∀ (nm : String) (v : DynData), (s.push nm v).values[i]? = some d) ∧
        (∀ n : Nat, i < n → (s.rewind n).values[i]? = some d) ∧
        (∀ (v : DynData) (s2 : Scope), s.set_value name v = some s2 →
            s2.values[i]? = some d) ∧
        (∀ (k : Nat) (al : String),
            (s.add_entry_alias k al).values[i]? = some d)) := by
  refine ⟨?_, ?_, ?_⟩
  · rw [Scope.get_mut]
    rcases hg : s.get_index name with _ | p
    · simp
    · rcases p with ⟨j, a⟩
      cases a <;> simp
  · intro i hm
    rw [Scope.get_mut] at hm
    rcases hg : s.get_index name with _ | p
    · rw [hg] at hm
      cases hm
    · rcases p with ⟨j, a⟩
      rw [hg] at hm
      cases a
      · have hji : j = i := Option.some.inj hm
        subst hji
        rfl
      · exact absurd hm (by simp [Option.bind])
  · intro i d hd hro
    have hlt : i < s.values.length := (List.getElem?_eq_some.mp hd).1
    refine ⟨?_, ?_, ?_, ?_⟩
    · intro nm v
      rw [show (s.push nm v).values =
            s.values ++ [{ dynFrom v with access := AccessMode.ReadWrite }] from rfl]
      rw [List.getElem?_append_left hlt]
      exact hd
    · intro n hin
      rw [show (s.rewind n).values = s.values.take n from rfl,
        List.getElem?_take]
      simp [hin, hd]
    · intro v s2 hset
      rw [Scope.set_value] at hset
      rcases hg : s.get_index name with _ | p
      · rw [hg] at hset
        cases hset
        rw [show (s.push name v).values =
              s.values ++ [{ dynFrom v with access := AccessMode.ReadWrite }] from rfl]
        rw [List.getElem?_append_left hlt]
        exact hd
      · rcases p with ⟨j, a⟩
        rw [hg] at hset
        cases a
        · cases hset
          have hacc : (s.values.getD j dynUnit).access = AccessMode.ReadWrite := by
            rw [get_index_eq_find] at hg
            obtain ⟨q, _, hq⟩ := Option.map_eq_some'.mp hg
            simp only [Prod.mk.injEq] at hq
            rw [← hq.1]
            exact hq.2
          have hne : j ≠ i := by
            intro hji
            subst hji
            rw [List.getD_eq_getElem?_getD, hd] at hacc
            rw [show (some d).getD dynUnit = d from rfl] at hacc
            rw [hro] at hacc
            cases hacc
          rw [show ({ s with values := s.values.set j (dynFrom v) } : Scope).values =
                s.values.set j (dynFrom v) from rfl]
          rw [List.getElem?_set_ne hne]
          exact hd
        · cases hset
    · intro k al
      exact hd

/-- C2 (counterexample): the claim says that after a by-value parameter
conversion the originating slot holds an empty/unit placeholder and never the
original value, for every supported by-value host parameter type.  For the
immutable-text reference type (`&str`) the conversion flattens the slot in
place and clones a reference out of it, so the slot still holds the original
string value and not a unit placeholder. -/
theorem by_value_refstr_keeps_original :
    (by_value HostTy.tRefStr ⟨DynData.DStr "a", AccessMode.ReadWrite⟩).1 =
      ⟨DynData.DStr "a", AccessMode.ReadWrite⟩ ∧
    (by_value HostTy.tRefStr ⟨DynData.DStr "a", AccessMode.ReadWrite⟩).1 ≠
      dynUnit := by
  decide

/-- C2 (amended): after a by-value parameter conversion, for every supported
by-value host parameter type except the immutable-text reference fast path
(`&str`), the originating slot holds the empty/unit placeholder; for the
`&str` fast path the slot retains the flattened original string value. -/
theorem by_value_slot_after (ty : HostTy) (d : Dynamic) :
    (ty ≠ HostTy.tRefStr → (by_value ty d).1 = dynUnit) ∧
    (by_value HostTy.tRefStr d).1 = flatten_in_place d :=
  by_value_slot_state ty d

/-- C2 (witness): the amended statement at the owned-text type on a concrete
string slot. -/
theorem by_value_slot_after_witness :
    (by_value HostTy.tOwnedStr ⟨DynData.DStr "a", AccessMode.ReadWrite⟩).1 =
      dynUnit :=
  (by_value_slot_after HostTy.tOwnedStr
    ⟨DynData.DStr "a", AccessMode.ReadWrite⟩).1 (by decide)

/-- C5: for every supported arity (0 up to the maximum of 20), the callable
entry produced for a plain, context-aware, fallible, or context-aware
fallible host function has a thunk that, on correctly typed argument slots,
returns `Ok` of the host result converted to a dynamic value (plain shapes),
or passes the host function's own result through with its error unchanged
(fallible shapes). -/
theorem arity_thunks (params : List HostTy) (args : List Dynamic)
    (ctx : NativeCallContext)
    (fp : List DynData → DynData)
    (fc : NativeCallContext → List DynData → DynData)
    (ff : List DynData → Except EvalAltResult DynData)
    (fcf : NativeCallContext → List DynData → Except EvalAltResult DynData)
    (_harity : params.length ≤ 20)
    (h : wellTypedArgs params args = true) :
    ((into_callable_plain ⟨params, fp⟩).thunk ctx args =
        some (Except.ok (dynFrom (fp (args.map Dynamic.data))),
          (drain_by_value params args).1)) ∧
    ((into_callable_ctx ⟨params, fc⟩).thunk ctx args =
        some (Except.ok (dynFrom (fc ctx (args.map Dynamic.data))),
          (drain_by_value params args).1)) ∧
    ((into_callable_fallible ⟨params, ff⟩).thunk ctx args =
        some (Except.map dynFrom (ff (args.map Dynamic.data)),
          (drain_by_value params args).1)) ∧
    (∀ err, ff (args.map Dynamic.data) = Except.error err →
        (into_callable_fallible ⟨params, ff⟩).thunk ctx args =
          some (Except.error err, (drain_by_value params args).1)) ∧
    ((into_callable_ctx_fallible ⟨params, fcf⟩).thunk ctx args =
        some (Except.map dynFrom (fcf ctx (args.map Dynamic.data)),
          (drain_by_value params args).1)) ∧
    (∀ err, fcf ctx (args.map Dynamic.data) = Except.error err →
        (into_callable_ctx_fallible ⟨params, fcf⟩).thunk ctx args =
          some (Except.error err, (drain_by_value params args).1)) := by
  have hd := drain_extracts params args h
  refine ⟨?_, ?_, ?_, ?_, ?_, ?_⟩
  · rw [show (into_callable_plain ⟨params, fp⟩).thunk ctx args =
        ((drain_by_value params args).2).map
          (fun vals => (Except.ok (dynFrom (fp vals)),
            (drain_by_value params args).1)) from rfl, hd]
    rfl
  · rw [show (into_callable_ctx ⟨params, fc⟩).thunk ctx args =
        ((drain_by_value params args).2).map
          (fun vals => (Except.ok (dynFrom (fc ctx vals)),
            (drain_by_value params args).1)) from rfl, hd]
    rfl
  · rw [show (into_callable_fallible ⟨params, ff⟩).thunk ctx args =
        ((drain_by_value params args).2).map
          (fun vals => (Except.map dynFrom (ff vals),
            (drain_by_value params args).1)) from rfl, hd]
    rfl
  · intro err herr
    rw [show (into_callable_fallible ⟨params, ff⟩).thunk ctx args =
        ((drain_by_value params args).2).map
          (fun vals => (Except.map dynFrom (ff vals),
            (drain_by_value params args).1)) from rfl, hd]
    simp [herr, Except.map]
  · rw [show (into_callable_ctx_fallible ⟨params, fcf⟩).thunk ctx args =
        ((drain_by_value params args).2).map
          (fun vals => (Except.map dynFrom (fcf ctx vals),
            (drain_by_value params args).1)) from rfl, hd]
    rfl
  · intro err herr
    rw [show (into_callable_ctx_fallible ⟨params, fcf⟩).thunk ctx args =
        ((drain_by_value params args).2).map
          (fun vals => (Except.map dynFrom (fcf ctx vals),
            (drain_by_value params args).1)) from rfl, hd]
    simp [herr, Except.map]

/-- C5 (witness): a unary plain function and a unary fallible function
evaluated through their thunks on a correctly typed slot. -/
theorem arity_thunks_witness :
    wellTypedArgs [HostTy.tInt] [⟨DynData.DInt 3, AccessMode.ReadWrite⟩] = true ∧
    (into_callable_plain ⟨[HostTy.tInt], fun _ => DynData.DInt 7⟩).thunk ⟨0⟩
        [⟨DynData.DInt 3, AccessMode.ReadWrite⟩] =
      some (Except.ok ⟨DynData.DInt 7, AccessMode.ReadWrite⟩, [dynUnit]) ∧
    (into_callable_fallible
        ⟨[HostTy.tInt], fun _ => Except.error ⟨"boom"⟩⟩).thunk ⟨0⟩
        [⟨DynData.DInt 3, AccessMode.ReadWrite⟩] =
      some (Except.error ⟨"boom"⟩, [dynUnit]) := by
  refine ⟨by decide, ?_, ?_⟩
  · exact ((arity_thunks [HostTy.tInt] [⟨DynData.DInt 3, AccessMode.ReadWrite⟩]
      ⟨0⟩ (fun _ => DynData.DInt 7) (fun _ _ => DynData.DUnit)
      (fun _ => Except.error ⟨"boom"⟩) (fun _ _ => Except.error ⟨"boom"⟩)
      (by decide) (by decide)).1).trans rfl
  · exact ((arity_thunks [HostTy.tInt] [⟨DynData.DInt 3, AccessMode.ReadWrite⟩]
      ⟨0⟩ (fun _ => DynData.DInt 7) (fun _ _ => DynData.DUnit)
      (fun _ => Except.error ⟨"boom"⟩) (fun _ _ => Except.error ⟨"boom"⟩)
      (by decide) (by decide)).2.2.2.1 ⟨"boom"⟩ rfl).trans rfl

/-- C8 (witness): the characterization applied to a concrete scope holding a
constant. -/
theorem readonly_never_mutated_witness :
    (Scope.new.push_constant "x" (DynData.DInt 1)).get_mut "x" = none ∧
    ((Scope.new.push_constant "x" (DynData.DInt 1)).rewind 1).values[0]? =
      some ⟨DynData.DInt 1, AccessMode.ReadOnly⟩ :=
  ⟨(readonly_never_mutated _ "x").1.mpr (Or.inr ⟨0, by decide⟩),
   ((readonly_never_mutated (Scope.new.push_constant "x" (DynData.DInt 1)) "x").2.2
      0 ⟨DynData.DInt 1, AccessMode.ReadOnly⟩ (by decide) rfl).2.1 1 (by decide)⟩

end Rhai
